import Mathlib

/-!
Verification of the Vex configuration-store CLI (src/src/main.rs).

The tool persists named QEMU launch configurations as one JSON file per
name, and re-invokes QEMU from a stored configuration. We shallowly embed
the data model (struct QemuConfig and its serde JSON encoding), the
filesystem store (a map from config name to file content), and the
Save / Exec / Rename / List command arms of main, and prove the spec's
behavioural claims about them.
-/

namespace Vex

/-- Model of a JSON value, as produced and consumed by serde_json. -/
inductive Json where
  | null
  | bool (b : Bool)
  | num (n : Int)
  | str (s : String)
  | arr (elems : List Json)
  | obj (members : List (String × Json))

/-- Embedding of struct QemuConfig from main.rs: qemu_bin : String,
args : Vec of String, desc : Option of String. -/
structure QemuConfig where
  qemu_bin : String
  args : List String
  desc : Option String
deriving DecidableEq, Repr

/-- Serde deserialization of a String field: only a JSON string succeeds. -/
def getStr : Json → Option String
  | .str s => some s
  | _ => none

/-- Elementwise string deserialization of a JSON array body. -/
def getStrs : List Json → Option (List String)
  | [] => some []
  | j :: rest => do
      let s ← getStr j
      let tl ← getStrs rest
      pure (s :: tl)

/-- Serde deserialization of a Vec of String field: a JSON array whose
elements are all strings. -/
def getStrList : Json → Option (List String)
  | .arr es => getStrs es
  | _ => none

/-- Serde deserialization of an Option String field value: null maps to
none, a string to some; anything else is an error. -/
def getOptStr : Json → Option (Option String)
  | .null => some none
  | .str s => some (some s)
  | _ => none

/-- The field-visiting loop of serde's derived Deserialize for QemuConfig:
fields are consumed in order into three slots, a duplicate field is an
error, an unknown field is ignored, and at the end qemu_bin and args are
required while a missing desc defaults to none (serde's Option behaviour). -/
def readFields : List (String × Json) → Option String → Option (List String) →
    Option (Option String) → Option QemuConfig
  | [], binSlot, argsSlot, descSlot => do
      let b ← binSlot
      let a ← argsSlot
      pure { qemu_bin := b, args := a, desc := descSlot.getD none }
  | (k, v) :: rest, binSlot, argsSlot, descSlot =>
      if k = "qemu_bin" then
        match binSlot with
        | some _ => none
        | none => do
            let s ← getStr v
            readFields rest (some s) argsSlot descSlot
      else if k = "args" then
        match argsSlot with
        | some _ => none
        | none => do
            let a ← getStrList v
            readFields rest binSlot (some a) descSlot
      else if k = "desc" then
        match descSlot with
        | some _ => none
        | none => do
            let d ← getOptStr v
            readFields rest binSlot argsSlot (some d)
      else
        readFields rest binSlot argsSlot descSlot

/-- Embedding of serde_json from_str for QemuConfig applied to an already
lexed JSON value: only an object deserializes. -/
def deserializeConfig : Json → Option QemuConfig
  | .obj members => readFields members none none none
  | _ => none

/-- Embedding of serde_json to_string_pretty for QemuConfig, at the level
of the JSON value written: the three fields in declaration order, with a
none description serialized as null. -/
def serializeConfig (c : QemuConfig) : Json :=
  .obj [("qemu_bin", .str c.qemu_bin),
        ("args", .arr (c.args.map Json.str)),
        ("desc", match c.desc with | none => Json.null | some d => Json.str d)]

theorem getStrs_map_str (as : List String) :
    getStrs (as.map Json.str) = some as := by
  induction as with
  | nil => rfl
  | cons a tl ih =>
      simp [getStrs, ih, getStr, Option.bind]

/-- Serialization followed by deserialization is the identity on records. -/
theorem deserialize_serialize (c : QemuConfig) :
    deserializeConfig (serializeConfig c) = some c := by
  cases c with
  | mk b as d =>
      cases d with
      | none =>
          simp [serializeConfig, deserializeConfig, readFields, getStr,
            getStrList, getOptStr, getStrs_map_str, Option.bind]
      | some s =>
          simp [serializeConfig, deserializeConfig, readFields, getStr,
            getStrList, getOptStr, getStrs_map_str, Option.bind]

/-- Content of one file in the configs directory: either text that lexes
as a JSON value, or text that is not valid JSON at all. -/
inductive FileContent where
  | parsed (j : Json)
  | garbage

/-- The configs directory as a map from config name (the file stem of
name.json under the .vex configs dir) to file content; none means the
file does not exist. -/
def Store : Type := String → Option FileContent

/-- Reading and deserializing a config file, as the Exec and Rename arms
do with read_to_string followed by serde_json from_str. -/
def parseContent : FileContent → Option QemuConfig
  | .parsed j => deserializeConfig j
  | .garbage => none

/-- Loading name from the store as the Exec arm does: the file must exist
and its content must deserialize. -/
def loadConfig (store : Store) (name : String) : Option QemuConfig :=
  (store name).bind parseContent

/-- ASCII model of Rust input normalization input.trim().to_lowercase()
applied to a line read from stdin. -/
def isWs (c : Char) : Bool := c = ' ' || c = '\t' || c = '\n' || c = '\r'

/-- Trim whitespace at both ends, then lowercase, as the prompt-answer
handling in main.rs does. -/
def normalize (s : String) : String :=
  ⟨((s.data.dropWhile isWs).reverse.dropWhile isWs).reverse.map Char.toLower⟩

/-- Embedding of the Save-arm check qemu_args.iter().any(arg == -s or
arg == -S). -/
def hasDebugArgs (args : List String) : Bool :=
  args.any (fun a => a == "-s" || a == "-S")

/-- Embedding of the Save-arm filter dropping every occurrence of -s and
-S while keeping all other arguments in order. -/
def stripDebugArgs (args : List String) : List String :=
  args.filter (fun a => !(a == "-s" || a == "-S"))

/-- Embedding of the accept condition of the strip-debug prompt:
input.is_empty() or input == y or input == yes, on normalized input. -/
def acceptsStrip (ans : String) : Bool :=
  ans == "" || ans == "y" || ans == "yes"

/-- Embedding of the accept condition of the overwrite prompts:
input == y or input == yes, on normalized input. -/
def acceptsOverwrite (ans : String) : Bool :=
  ans == "y" || ans == "yes"

/-- Outcome of the Save arm (both paths return Ok from main). -/
inductive SaveResult where
  | saved
  | cancelled
deriving DecidableEq, Repr

/-- The argument list the Save arm persists: when a debug flag is
detected, one stdin line answers the strip prompt and an accepting
(default yes) answer filters the debug flags out; otherwise the original
list is kept. -/
def saveFinalArgs (qemu_args : List String) (stdin : List String) : List String :=
  if hasDebugArgs qemu_args then
    if acceptsStrip (normalize (stdin.headD "")) then stripDebugArgs qemu_args
    else qemu_args
  else qemu_args

/-- Continuation of the Save-arm embedding: the stdin lines left after the
strip-debug prompt, which consumes one line exactly when a debug flag was
detected. -/
def saveStdinRest (qemu_args : List String) (stdin : List String) : List String :=
  if hasDebugArgs qemu_args then stdin.tail else stdin

/-- Embedding of the Vex::Save arm of main. Interactive stdin is a list
of lines, consumed in program order: first the strip-debug prompt when a
debug flag is present (default yes), then the overwrite prompt when the
file exists and force is false (default no). Reading past the end of
stdin yields the empty line, as read_line does at end of input. -/
def runSave (store : Store) (force : Bool) (name : String) (desc : Option String)
    (qemu_bin : String) (qemu_args : List String) (stdin : List String) :
    SaveResult × Store :=
  let finalArgs := saveFinalArgs qemu_args stdin
  let stdin2 := saveStdinRest qemu_args stdin
  let config : QemuConfig := { qemu_bin := qemu_bin, args := finalArgs, desc := desc }
  if (store name).isSome && !force then
    if acceptsOverwrite (normalize (stdin2.headD "")) then
      (SaveResult.saved,
        fun n => if n = name then some (FileContent.parsed (serializeConfig config)) else store n)
    else
      (SaveResult.cancelled, store)
  else
    (SaveResult.saved,
      fun n => if n = name then some (FileContent.parsed (serializeConfig config)) else store n)

/-- Process exit code of a completed Save arm: both the saved and the
user-cancelled path return Ok from main, so the process exits 0. -/
def saveExitCode : SaveResult → Nat
  | .saved => 0
  | .cancelled => 0

/-- Outcome of spawning the external executable, supplied as an oracle:
the spawn itself can fail, or the child exits with a code, or the child
is terminated by a signal (so status.code() is None). -/
inductive SpawnOutcome where
  | spawnError
  | exited (code : Int)
  | signaled

/-- Outcome of the Exec arm: missing record file, undeserializable
record, spawn failure, child finished unsuccessfully (carrying
status.code().unwrap_or(-1)), or success. -/
inductive ExecResult where
  | notFound
  | corrupt
  | spawnFailed
  | childFailed (code : Int)
  | success
deriving DecidableEq, Repr

/-- Everything the Exec arm produces: its result, the spawn invocation it
attempted (executable and argument list), and the configs directory after
the command (the arm performs no writes). -/
structure ExecOutput where
  result : ExecResult
  spawned : Option (String × List String)
  store : Store

/-- The argument list the Exec arm passes to the child: the stored args,
with -s and -S pushed at the end when debug is set. -/
def execArgsOf (c : QemuConfig) (debug : Bool) : List String :=
  if debug then c.args ++ ["-s", "-S"] else c.args

/-- Embedding of the Vex::Exec arm of main: bail if the file is missing,
read and deserialize it, append the debug flags to the in-memory list if
requested, spawn the executable and wait; bail on spawn failure and on an
unsuccessful exit status, reporting status.code().unwrap_or(-1). -/
def runExec (store : Store) (name : String) (debug : Bool)
    (spawn : String → List String → SpawnOutcome) : ExecOutput :=
  match store name with
  | none => ⟨.notFound, none, store⟩
  | some content =>
    match parseContent content with
    | none => ⟨.corrupt, none, store⟩
    | some config =>
      let execArgs := execArgsOf config debug
      match spawn config.qemu_bin execArgs with
      | .spawnError => ⟨.spawnFailed, some (config.qemu_bin, execArgs), store⟩
      | .exited code =>
          if code = 0 then ⟨.success, some (config.qemu_bin, execArgs), store⟩
          else ⟨.childFailed code, some (config.qemu_bin, execArgs), store⟩
      | .signaled => ⟨.childFailed (-1), some (config.qemu_bin, execArgs), store⟩

/-- Process exit code of a completed Exec arm. Every failure path uses
anyhow bail, so main returns Err and the Rust runtime (the Termination
instance for Result) exits the process with code 1; only the success path
exits 0. -/
def execExitCode : ExecResult → Nat
  | .success => 0
  | _ => 1

/-- Outcome of the Rename arm. -/
inductive RenameResult where
  | notFound
  | cancelled
  | corrupt
  | renamed
deriving DecidableEq, Repr

/-- Embedding of the Vex::Rename arm of main: bail if old_name's file is
missing; if new_name's file exists and force is false, prompt (default
no) and cancel unless the answer is y or yes; then read and deserialize
the old record, replace its description when one was supplied, write it
under new_name, and finally delete old_name's file. -/
def runRename (store : Store) (desc : Option String) (force : Bool)
    (old_name new_name : String) (stdin : List String) : RenameResult × Store :=
  match store old_name with
  | none => (.notFound, store)
  | some oldContent =>
    let proceed : Bool :=
      if (store new_name).isSome && !force then
        acceptsOverwrite (normalize (stdin.headD ""))
      else true
    if proceed then
      match parseContent oldContent with
      | none => (.corrupt, store)
      | some config =>
        let config' : QemuConfig :=
          { config with desc := match desc with | some d => some d | none => config.desc }
        let afterWrite : Store :=
          fun n => if n = new_name then some (.parsed (serializeConfig config')) else store n
        let afterDelete : Store :=
          fun n => if n = old_name then none else afterWrite n
        (.renamed, afterDelete)
    else (.cancelled, store)

/-- One entry of the configs directory as seen by list_configs: the file
stem, whether the extension is json, and what reading the file yields
(read_to_string may fail, otherwise it yields the content). -/
inductive ReadOutcome where
  | readFailed
  | content (c : FileContent)

/-- Directory entry for the List arm. -/
structure DirEntry where
  stem : String
  isJson : Bool
  read : ReadOutcome

/-- Embedding of list_configs from main.rs, given the directory
enumeration: keep each json file whose read succeeds and whose content
deserializes, pairing the file stem with the record; skip everything
else silently. The function is total: no input makes it fail. -/
def listConfigs (entries : List DirEntry) : List (String × QemuConfig) :=
  entries.filterMap (fun e =>
    if e.isJson then
      match e.read with
      | .readFailed => none
      | .content c => (parseContent c).map (fun cfg => (e.stem, cfg))
    else none)

theorem hasDebugArgs_iff (as : List String) :
    hasDebugArgs as = true ↔ "-s" ∈ as ∨ "-S" ∈ as := by
  simp only [hasDebugArgs, List.any_eq_true, Bool.or_eq_true, beq_iff_eq]
  constructor
  · rintro ⟨a, ha, rfl | rfl⟩
    · exact Or.inl ha
    · exact Or.inr ha
  · rintro (h | h)
    · exact ⟨_, h, Or.inl rfl⟩
    · exact ⟨_, h, Or.inr rfl⟩

theorem hasDebugArgs_eq_false {as : List String} (hs : "-s" ∉ as) (hS : "-S" ∉ as) :
    hasDebugArgs as = false := by
  rcases h : hasDebugArgs as with _ | _
  · rfl
  · rcases (hasDebugArgs_iff as).mp h with h1 | h1
    · exact absurd h1 hs
    · exact absurd h1 hS

theorem stripDebugArgs_eq_filter (as : List String) :
    stripDebugArgs as = as.filter (fun a => decide (a ≠ "-s" ∧ a ≠ "-S")) := by
  apply List.filter_congr
  intro a _
  rcases Decidable.eq_or_ne a "-s" with rfl | h1
  · simp
  · rcases Decidable.eq_or_ne a "-S" with rfl | h2
    · simp
    · simp [h1, h2]

theorem runSave_saved_store (store : Store) (force : Bool) (name : String)
    (d : Option String) (b : String) (as : List String) (stdin : List String)
    (h : (runSave store force name d b as stdin).1 = SaveResult.saved) :
    (runSave store force name d b as stdin).2 name =
      some (.parsed (serializeConfig ⟨b, saveFinalArgs as stdin, d⟩)) := by
  unfold runSave at h ⊢
  rcases hc : ((store name).isSome && !force) with _ | _
  · simp [hc]
  · rcases ha : acceptsOverwrite (normalize ((saveStdinRest as stdin).headD "")) with _ | _
    · rw [List.headD_eq_head?] at ha
      simp [hc, ha] at h
    · rw [List.headD_eq_head?] at ha
      simp [hc, ha]

theorem runSave_cancelled (store : Store) (name : String)
    (d : Option String) (b : String) (as : List String) (stdin : List String)
    (hex : (store name).isSome = true)
    (ha : acceptsOverwrite (normalize ((saveStdinRest as stdin).headD "")) = false) :
    runSave store false name d b as stdin = (SaveResult.cancelled, store) := by
  rw [List.headD_eq_head?] at ha
  unfold runSave
  simp [hex, ha]

theorem runSave_force_saved (store : Store) (name : String)
    (d : Option String) (b : String) (as : List String) (stdin : List String) :
    (runSave store true name d b as stdin).1 = SaveResult.saved := by
  unfold runSave
  simp

theorem runExec_store_eq (store : Store) (name : String) (debug : Bool)
    (spawn : String → List String → SpawnOutcome) :
    (runExec store name debug spawn).store = store := by
  unfold runExec
  rcases h : store name with _ | content
  · rfl
  · rcases hp : parseContent content with _ | config
    · simp [hp]
    · rcases hs : spawn config.qemu_bin (execArgsOf config debug) with _ | code | _
      · simp [hp, hs]
      · by_cases hc : code = 0 <;> simp [hp, hs, hc]
      · simp [hp, hs]

theorem runExec_spawned (store : Store) (name : String) (debug : Bool)
    (spawn : String → List String → SpawnOutcome) (fc : FileContent) (c : QemuConfig)
    (hfile : store name = some fc) (hparse : parseContent fc = some c) :
    (runExec store name debug spawn).spawned = some (c.qemu_bin, execArgsOf c debug) := by
  simp only [runExec, hfile, hparse]
  rcases spawn c.qemu_bin (execArgsOf c debug) with _ | code | _
  · rfl
  · by_cases hc : code = 0 <;> simp [hc]
  · rfl

/-- C1: the claim that Save(N, R) with force followed by loading yields R
back is false as stated: force only suppresses the overwrite prompt, not
the strip-debug prompt, whose default answer is yes. Saving the record
(qemu, [-s], no description) under vm1 with empty stdin succeeds but the
loaded record has an empty argument list, not [-s]. -/
theorem C1_roundtrip_counterexample :
    (runSave (fun _ => none) true "vm1" none "qemu" ["-s"] []).1 = SaveResult.saved
    ∧ loadConfig (runSave (fun _ => none) true "vm1" none "qemu" ["-s"] []).2 "vm1"
        = some ⟨"qemu", [], none⟩
    ∧ (⟨"qemu", [], none⟩ : QemuConfig) ≠ ⟨"qemu", ["-s"], none⟩ :=
  ⟨rfl, rfl, by decide⟩

/-- C1 (amended): for every valid name N and every record R whose
argument list contains neither -s nor -S, Save(N, R) with force followed
by loading N as Exec does (reading and deserializing the stored file)
yields a record equal to R in executable path, arguments and
description. -/
theorem C1_roundtrip_amended (store : Store) (name : String) (b : String)
    (as : List String) (d : Option String) (stdin : List String)
    (hs : "-s" ∉ as) (hS : "-S" ∉ as) :
    (runSave store true name d b as stdin).1 = SaveResult.saved
    ∧ loadConfig (runSave store true name d b as stdin).2 name = some ⟨b, as, d⟩ := by
  have hd : hasDebugArgs as = false := hasDebugArgs_eq_false hs hS
  have hfin : saveFinalArgs as stdin = as := by simp [saveFinalArgs, hd]
  refine ⟨runSave_force_saved store name d b as stdin, ?_⟩
  have hst := runSave_saved_store store true name d b as stdin
    (runSave_force_saved store name d b as stdin)
  rw [loadConfig, hst, hfin]
  simp [parseContent, deserialize_serialize]

/-- Witness for C1 (amended) at a concrete record without debug flags. -/
theorem C1_roundtrip_amended_witness :
    (runSave (fun _ => none) true "vm1" (some "demo") "qemu" ["-m", "512"] []).1
        = SaveResult.saved
    ∧ loadConfig
        (runSave (fun _ => none) true "vm1" (some "demo") "qemu" ["-m", "512"] []).2 "vm1"
        = some ⟨"qemu", ["-m", "512"], some "demo"⟩ :=
  C1_roundtrip_amended (fun _ => none) "vm1" "qemu" ["-m", "512"] (some "demo") []
    (by decide) (by decide)

/-- C3: on a stored record with arguments A1..An, Exec with debug spawns
the executable with A1..An followed by exactly -s then -S, the configs
directory is untouched at every name, and loading the record afterwards
still yields the stored record. -/
theorem C3_exec_debug_frame (store : Store) (name : String)
    (spawn : String → List String → SpawnOutcome) (fc : FileContent) (c : QemuConfig)
    (hfile : store name = some fc) (hparse : parseContent fc = some c) :
    (runExec store name true spawn).spawned = some (c.qemu_bin, c.args ++ ["-s", "-S"])
    ∧ (∀ n, (runExec store name true spawn).store n = store n)
    ∧ loadConfig (runExec store name true spawn).store name = some c := by
  have h1 := runExec_spawned store name true spawn fc c hfile hparse
  have h2 := runExec_store_eq store name true spawn
  refine ⟨?_, fun n => by rw [h2], ?_⟩
  · rw [h1]
    simp [execArgsOf]
  · rw [h2]
    simp [loadConfig, hfile, hparse]

/-- Witness for C3 at a concrete store and child behaviour. -/
theorem C3_exec_debug_frame_witness :
    (runExec (fun n => if n = "vm" then
        some (.parsed (serializeConfig ⟨"qemu", ["-m", "512"], none⟩)) else none)
      "vm" true (fun _ _ => SpawnOutcome.exited 0)).spawned
        = some ("qemu", ["-m", "512"] ++ ["-s", "-S"])
    ∧ (∀ n, (runExec (fun n => if n = "vm" then
        some (.parsed (serializeConfig ⟨"qemu", ["-m", "512"], none⟩)) else none)
      "vm" true (fun _ _ => SpawnOutcome.exited 0)).store n =
        (fun n => if n = "vm" then
          some (.parsed (serializeConfig ⟨"qemu", ["-m", "512"], none⟩)) else none) n)
    ∧ loadConfig (runExec (fun n => if n = "vm" then
        some (.parsed (serializeConfig ⟨"qemu", ["-m", "512"], none⟩)) else none)
      "vm" true (fun _ _ => SpawnOutcome.exited 0)).store "vm"
        = some ⟨"qemu", ["-m", "512"], none⟩ :=
  C3_exec_debug_frame _ "vm" _ _ ⟨"qemu", ["-m", "512"], none⟩ rfl rfl

/-- C10: self-rename deletes the record: renaming an existing name N to
itself with force reports success, but the write to the new path is then
deleted as the old path, so N no longer resolves afterwards. -/
theorem C10_self_rename_deletes (store : Store) (n : String) (fc : FileContent)
    (c : QemuConfig) (stdin : List String)
    (hfile : store n = some fc) (hparse : parseContent fc = some c) :
    (runRename store none true n n stdin).1 = RenameResult.renamed
    ∧ (runRename store none true n n stdin).2 n = none := by
  simp only [runRename, hfile, hparse]
  simp

/-- Witness for C10 at a concrete store. -/
theorem C10_self_rename_deletes_witness :
    (runRename (fun n => if n = "a" then
        some (.parsed (serializeConfig ⟨"q", ["-m", "1"], some "d"⟩)) else none)
      none true "a" "a" []).1 = RenameResult.renamed
    ∧ (runRename (fun n => if n = "a" then
        some (.parsed (serializeConfig ⟨"q", ["-m", "1"], some "d"⟩)) else none)
      none true "a" "a" []).2 "a" = none :=
  C10_self_rename_deletes _ "a" _ ⟨"q", ["-m", "1"], some "d"⟩ [] rfl rfl

/-- C2: Save detects a debug flag exactly when some argument is the
string -s or -S; the strip prompt is answered by the first stdin line,
and a normalized answer of empty, y or yes (default yes) makes the
persisted list, whenever the save completes, the original list with
every occurrence of -s and -S removed and all other arguments kept in
order, while any other answer persists the original list verbatim. -/
theorem C2_debug_strip_on_save (store : Store) (force : Bool) (name : String)
    (d : Option String) (b : String) (as : List String) (ans : String)
    (rest : List String) :
    (hasDebugArgs as = true ↔ "-s" ∈ as ∨ "-S" ∈ as)
    ∧ (hasDebugArgs as = true →
        (runSave store force name d b as (ans :: rest)).1 = SaveResult.saved →
        ((normalize ans = "" ∨ normalize ans = "y" ∨ normalize ans = "yes") →
            loadConfig (runSave store force name d b as (ans :: rest)).2 name =
              some ⟨b, as.filter (fun a => decide (a ≠ "-s" ∧ a ≠ "-S")), d⟩)
        ∧ (normalize ans ≠ "" → normalize ans ≠ "y" → normalize ans ≠ "yes" →
            loadConfig (runSave store force name d b as (ans :: rest)).2 name =
              some ⟨b, as, d⟩)) := by
  refine ⟨hasDebugArgs_iff as, fun hdbg hsaved => ?_⟩
  have hst := runSave_saved_store store force name d b as (ans :: rest) hsaved
  have hload : loadConfig (runSave store force name d b as (ans :: rest)).2 name =
      some ⟨b, saveFinalArgs as (ans :: rest), d⟩ := by
    rw [loadConfig, hst]
    simp [parseContent, deserialize_serialize]
  constructor
  · intro hy
    have hacc : acceptsStrip (normalize ans) = true := by
      rcases hy with h | h | h <;> simp [acceptsStrip, h]
    rw [hload]
    simp [saveFinalArgs, hdbg, hacc, stripDebugArgs_eq_filter]
  · intro h1 h2 h3
    have hacc : acceptsStrip (normalize ans) = false := by
      simp [acceptsStrip, h1, h2, h3]
    rw [hload]
    simp [saveFinalArgs, hdbg, hacc]

/-- Witness for C2: stripping with flags in first and last position. -/
theorem C2_debug_strip_on_save_witness :
    loadConfig (runSave (fun _ => none) true "vm" none "q"
        ["-s", "-m", "512", "-S"] ["y"]).2 "vm" = some ⟨"q", ["-m", "512"], none⟩ := by
  have h := ((C2_debug_strip_on_save (fun _ => none) true "vm" none "q"
      ["-s", "-m", "512", "-S"] "y" []).2 (by decide)
      (runSave_force_saved (fun _ => none) "vm" none "q" ["-s", "-m", "512", "-S"] ["y"])).1
      (Or.inr (Or.inl (by decide)))
  exact h.trans (by decide)

/-- C5: when a record already exists under the name and force is false,
the overwrite prompt (default no, answered by the stdin line after the
optional strip-debug prompt) controls the outcome: any normalized answer
other than y or yes cancels the whole command with exit status 0 and the
store unchanged, while y or yes, or force which skips the prompt,
overwrites the record with the new configuration. -/
theorem C5_save_overwrite_confirm (store : Store) (name : String) (d : Option String)
    (b : String) (as : List String) (stdin : List String) (fc : FileContent)
    (ans : String) (hex : store name = some fc)
    (hans : ans = normalize ((saveStdinRest as stdin).headD "")) :
    (ans ≠ "y" → ans ≠ "yes" →
        runSave store false name d b as stdin = (SaveResult.cancelled, store)
        ∧ saveExitCode (runSave store false name d b as stdin).1 = 0)
    ∧ ((ans = "y" ∨ ans = "yes") →
        (runSave store false name d b as stdin).1 = SaveResult.saved
        ∧ (runSave store false name d b as stdin).2 name =
            some (.parsed (serializeConfig ⟨b, saveFinalArgs as stdin, d⟩)))
    ∧ ((runSave store true name d b as stdin).1 = SaveResult.saved
        ∧ (runSave store true name d b as stdin).2 name =
            some (.parsed (serializeConfig ⟨b, saveFinalArgs as stdin, d⟩))) := by
  have hsome : (store name).isSome = true := by rw [hex]; rfl
  refine ⟨fun h1 h2 => ?_, fun hy => ?_, ?_⟩
  · have hacc : acceptsOverwrite (normalize ((saveStdinRest as stdin).headD "")) = false := by
      rw [← hans]
      simp [acceptsOverwrite, h1, h2]
    have hc := runSave_cancelled store name d b as stdin hsome hacc
    exact ⟨hc, by rw [hc]; rfl⟩
  · have hacc : acceptsOverwrite (normalize ((saveStdinRest as stdin).headD "")) = true := by
      rw [← hans]
      rcases hy with h | h <;> simp [acceptsOverwrite, h]
    rw [List.headD_eq_head?] at hacc
    have h1 : (runSave store false name d b as stdin).1 = SaveResult.saved := by
      unfold runSave
      simp [hsome, hacc]
    exact ⟨h1, runSave_saved_store store false name d b as stdin h1⟩
  · have h1 := runSave_force_saved store name d b as stdin
    exact ⟨h1, runSave_saved_store store true name d b as stdin h1⟩

/-- Witness for C5: declining the overwrite prompt cancels and keeps the
existing record. -/
theorem C5_save_overwrite_confirm_witness :
    runSave (fun n => if n = "vm" then
        some (.parsed (serializeConfig ⟨"q", [], none⟩)) else none)
      false "vm" none "q2" ["-m", "1"] ["n"] =
      (SaveResult.cancelled, fun n => if n = "vm" then
        some (.parsed (serializeConfig ⟨"q", [], none⟩)) else none)
    ∧ saveExitCode (runSave (fun n => if n = "vm" then
        some (.parsed (serializeConfig ⟨"q", [], none⟩)) else none)
      false "vm" none "q2" ["-m", "1"] ["n"]).1 = 0 :=
  (C5_save_overwrite_confirm _ "vm" none "q2" ["-m", "1"] ["n"] _ "n" rfl
    (by decide)).1 (by decide) (by decide)

theorem runRename_eq_found (store : Store) (d : Option String) (force : Bool)
    (old_name new_name : String) (stdin : List String) (fc : FileContent) (c : QemuConfig)
    (hfile : store old_name = some fc) (hparse : parseContent fc = some c) :
    runRename store d force old_name new_name stdin =
      if (if (store new_name).isSome && !force then
            acceptsOverwrite (normalize (stdin.headD "")) else true) = true then
        (RenameResult.renamed, fun n => if n = old_name then none
          else if n = new_name then
            some (.parsed (serializeConfig ⟨c.qemu_bin, c.args,
              match d with | some nd => some nd | none => c.desc⟩))
          else store n)
      else (RenameResult.cancelled, store) := by
  simp only [runRename, hfile, hparse]

/-- C4 as stated is false when old_name equals new_name: renaming an
existing name a to itself with force succeeds, yet afterwards the name
does not resolve, contradicting the claim that exists(new) is true after
every successful rename. -/
theorem C4_rename_counterexample :
    (runRename (fun n => if n = "a" then
        some (.parsed (serializeConfig ⟨"q", ["-m", "2"], none⟩)) else none)
      none true "a" "a" []).1 = RenameResult.renamed
    ∧ (runRename (fun n => if n = "a" then
        some (.parsed (serializeConfig ⟨"q", ["-m", "2"], none⟩)) else none)
      none true "a" "a" []).2 "a" = none :=
  ⟨rfl, rfl⟩

/-- C4 (amended): for distinct old and new names, Rename with an
unresolvable old name fails with NotFound leaving the store (hence the
file under new_name) untouched; and after a successful rename the old
name no longer resolves while the new name holds a record with the old
executable path and arguments, and the supplied description when one was
given, otherwise the old one. -/
theorem C4_rename_amended (store : Store) (d : Option String) (force : Bool)
    (old_name new_name : String) (stdin : List String) (hne : old_name ≠ new_name) :
    (store old_name = none →
        runRename store d force old_name new_name stdin = (RenameResult.notFound, store))
    ∧ (∀ fc c, store old_name = some fc → parseContent fc = some c →
        (runRename store d force old_name new_name stdin).1 = RenameResult.renamed →
        (runRename store d force old_name new_name stdin).2 old_name = none
        ∧ loadConfig (runRename store d force old_name new_name stdin).2 new_name =
            some ⟨c.qemu_bin, c.args,
              match d with | some nd => some nd | none => c.desc⟩) := by
  constructor
  · intro h
    simp [runRename, h]
  · intro fc c hfile hparse hrenamed
    have heq := runRename_eq_found store d force old_name new_name stdin fc c hfile hparse
    rcases hpr : (if (store new_name).isSome && !force then
        acceptsOverwrite (normalize (stdin.headD "")) else true) with _ | _
    · rw [heq, if_neg (by rw [hpr]; exact Bool.false_ne_true)] at hrenamed
      simp at hrenamed
    · rw [heq, if_pos (by rw [hpr])]
      refine ⟨by simp, ?_⟩
      have hnn : new_name ≠ old_name := fun h => hne h.symm
      simp [loadConfig, hnn, parseContent, deserialize_serialize]

/-- Witness for C4 (amended): a successful rename from a to b moves the
record and keeps the old description. -/
theorem C4_rename_amended_witness :
    (runRename (fun n => if n = "a" then
        some (.parsed (serializeConfig ⟨"q", ["-m", "2"], some "old"⟩)) else none)
      none true "a" "b" []).2 "a" = none
    ∧ loadConfig (runRename (fun n => if n = "a" then
        some (.parsed (serializeConfig ⟨"q", ["-m", "2"], some "old"⟩)) else none)
      none true "a" "b" []).2 "b" = some ⟨"q", ["-m", "2"], some "old"⟩ :=
  (C4_rename_amended _ none true "a" "b" [] (by decide)).2 _
    ⟨"q", ["-m", "2"], some "old"⟩ rfl (by decide) rfl

/-- C6 as stated is false: when the child exits with code 2, the Exec arm
bails with an error that carries the code 2 in its message, but main
returns Err and the Rust runtime maps any Err to process exit code 1, so
vex exits with 1, not with the child code 2. -/
theorem C6_exit_code_counterexample :
    (runExec (fun n => if n = "vm" then
        some (.parsed (serializeConfig ⟨"q", [], none⟩)) else none)
      "vm" false (fun _ _ => SpawnOutcome.exited 2)).result = ExecResult.childFailed 2
    ∧ execExitCode (runExec (fun n => if n = "vm" then
        some (.parsed (serializeConfig ⟨"q", [], none⟩)) else none)
      "vm" false (fun _ _ => SpawnOutcome.exited 2)).result = 1
    ∧ (1 : Nat) ≠ 2 :=
  ⟨rfl, rfl, by decide⟩

/-- C6 (amended): when the child terminates with a non-zero exit code k,
Exec fails carrying k in its error report, and the vex process exits with
the generic failure code 1 (main returning Err), not with k itself. -/
theorem C6_exit_code_amended (store : Store) (name : String) (debug : Bool)
    (spawn : String → List String → SpawnOutcome) (fc : FileContent) (c : QemuConfig)
    (k : Int) (hfile : store name = some fc) (hparse : parseContent fc = some c)
    (hk : k ≠ 0) (hsp : spawn c.qemu_bin (execArgsOf c debug) = SpawnOutcome.exited k) :
    (runExec store name debug spawn).result = ExecResult.childFailed k
    ∧ execExitCode (runExec store name debug spawn).result = 1 := by
  have h : (runExec store name debug spawn).result = ExecResult.childFailed k := by
    simp only [runExec, hfile, hparse, hsp]
    simp [hk]
  exact ⟨h, by rw [h]; rfl⟩

/-- Witness for C6 (amended) at a concrete store and child exit code. -/
theorem C6_exit_code_amended_witness :
    (runExec (fun n => if n = "vm" then
        some (.parsed (serializeConfig ⟨"q", ["-m", "4"], none⟩)) else none)
      "vm" true (fun _ _ => SpawnOutcome.exited 3)).result = ExecResult.childFailed 3
    ∧ execExitCode (runExec (fun n => if n = "vm" then
        some (.parsed (serializeConfig ⟨"q", ["-m", "4"], none⟩)) else none)
      "vm" true (fun _ _ => SpawnOutcome.exited 3)).result = 1 :=
  C6_exit_code_amended _ "vm" true _ _ ⟨"q", ["-m", "4"], none⟩ 3 rfl (by decide)
    (by decide) rfl

/-- C7: Exec fails with notFound (and a non-zero process exit) when the
record file is missing; on a stored, deserializable record it fails with
spawnFailed when the executable cannot be launched, with childFailed k
when the child exits with a non-zero code k, and with childFailed (-1)
(the unknown code) when the child is terminated by a signal; and it
succeeds exactly when a stored, deserializable record spawns a child
that exits with code 0. -/
theorem C7_exec_error_taxonomy (store : Store) (name : String) (debug : Bool)
    (spawn : String → List String → SpawnOutcome) :
    (store name = none →
        (runExec store name debug spawn).result = ExecResult.notFound
        ∧ execExitCode (runExec store name debug spawn).result ≠ 0)
    ∧ (∀ fc c, store name = some fc → parseContent fc = some c →
        (spawn c.qemu_bin (execArgsOf c debug) = SpawnOutcome.spawnError →
            (runExec store name debug spawn).result = ExecResult.spawnFailed)
        ∧ (∀ k, spawn c.qemu_bin (execArgsOf c debug) = SpawnOutcome.exited k → k ≠ 0 →
            (runExec store name debug spawn).result = ExecResult.childFailed k)
        ∧ (spawn c.qemu_bin (execArgsOf c debug) = SpawnOutcome.signaled →
            (runExec store name debug spawn).result = ExecResult.childFailed (-1)))
    ∧ ((runExec store name debug spawn).result = ExecResult.success ↔
        ∃ fc c, store name = some fc ∧ parseContent fc = some c ∧
          spawn c.qemu_bin (execArgsOf c debug) = SpawnOutcome.exited 0) := by
  refine ⟨fun h => ?_, fun fc c hfile hparse => ?_, ?_⟩
  · have hr : (runExec store name debug spawn).result = ExecResult.notFound := by
      simp [runExec, h]
    exact ⟨hr, by rw [hr]; decide⟩
  · refine ⟨fun hsp => ?_, fun k hsp hk => ?_, fun hsp => ?_⟩
    · simp [runExec, hfile, hparse, hsp]
    · simp [runExec, hfile, hparse, hsp, hk]
    · simp [runExec, hfile, hparse, hsp]
  · constructor
    · intro hsucc
      rcases h1 : store name with _ | fc
      · simp [runExec, h1] at hsucc
      · rcases h2 : parseContent fc with _ | c
        · simp [runExec, h1, h2] at hsucc
        · rcases h3 : spawn c.qemu_bin (execArgsOf c debug) with _ | k | _
          · simp [runExec, h1, h2, h3] at hsucc
          · by_cases hk : k = 0
            · subst hk
              exact ⟨fc, c, rfl, h2, h3⟩
            · simp [runExec, h1, h2, h3, hk] at hsucc
          · simp [runExec, h1, h2, h3] at hsucc
    · rintro ⟨fc, c, hfile, hparse, hsp⟩
      simp [runExec, hfile, hparse, hsp]

/-- Witness for C7: a missing record yields notFound with non-zero exit,
and a present record whose child exits 0 yields success. -/
theorem C7_exec_error_taxonomy_witness :
    ((runExec (fun _ => none) "vm" false (fun _ _ => SpawnOutcome.exited 0)).result
        = ExecResult.notFound
      ∧ execExitCode (runExec (fun _ => none) "vm" false
          (fun _ _ => SpawnOutcome.exited 0)).result ≠ 0)
    ∧ (runExec (fun n => if n = "vm" then
          some (.parsed (serializeConfig ⟨"q", [], none⟩)) else none)
        "vm" false (fun _ _ => SpawnOutcome.exited 0)).result = ExecResult.success :=
  ⟨(C7_exec_error_taxonomy (fun _ => none) "vm" false (fun _ _ => SpawnOutcome.exited 0)).1
      rfl,
   (C7_exec_error_taxonomy (fun n => if n = "vm" then
        some (.parsed (serializeConfig ⟨"q", [], none⟩)) else none)
      "vm" false (fun _ _ => SpawnOutcome.exited 0)).2.2.mpr
      ⟨_, ⟨"q", [], none⟩, rfl, by decide, rfl⟩⟩

theorem listEntry_eq_some (e : DirEntry) (name : String) (cfg : QemuConfig) :
    (if e.isJson then
        match e.read with
        | .readFailed => none
        | .content c => (parseContent c).map (fun cfg => (e.stem, cfg))
      else none) = some (name, cfg) ↔
      e.stem = name ∧ e.isJson = true ∧
        ∃ fc, e.read = ReadOutcome.content fc ∧ parseContent fc = some cfg := by
  rcases e with ⟨stem, isJson, rd⟩
  rcases isJson with _ | _
  · simp
  · rcases rd with _ | fcc
    · simp
    · simp only [if_pos rfl]
      constructor
      · intro h
        rcases hp : parseContent fcc with _ | c
        · rw [hp] at h
          simp at h
        · rw [hp] at h
          simp at h
          exact ⟨h.1, by trivial, fcc, rfl, by rw [hp, h.2]⟩
      · rintro ⟨hstem, -, fc, hfc, hps⟩
        cases hfc
        rw [hps]
        simp [hstem]

/-- C8: over any directory enumeration, List prints a pair (name, record)
exactly when some entry is a json file with that stem whose content reads
successfully and deserializes to that record; entries that fail to read
or parse are silently omitted, and the function is total, so a corrupt
record can never raise an error. -/
theorem C8_list_skips_corrupt (entries : List DirEntry) (name : String) (cfg : QemuConfig) :
    (name, cfg) ∈ listConfigs entries ↔
      ∃ e ∈ entries, e.stem = name ∧ e.isJson = true ∧
        ∃ fc, e.read = ReadOutcome.content fc ∧ parseContent fc = some cfg := by
  rw [listConfigs, List.mem_filterMap]
  constructor
  · rintro ⟨e, he, hfe⟩
    exact ⟨e, he, (listEntry_eq_some e name cfg).mp hfe⟩
  · rintro ⟨e, he, h⟩
    exact ⟨e, he, (listEntry_eq_some e name cfg).mpr h⟩

/-- Witness for C8: a directory with one corrupt and one valid json file
lists exactly the valid one. -/
theorem C8_list_skips_corrupt_witness :
    ("vm1", (⟨"q", ["-m", "8"], none⟩ : QemuConfig)) ∈ listConfigs
      [⟨"bad", true, .content .garbage⟩,
       ⟨"vm1", true, .content (.parsed (serializeConfig ⟨"q", ["-m", "8"], none⟩))⟩] :=
  (C8_list_skips_corrupt _ "vm1" ⟨"q", ["-m", "8"], none⟩).mpr
    ⟨⟨"vm1", true, .content (.parsed (serializeConfig ⟨"q", ["-m", "8"], none⟩))⟩,
      by simp, rfl, rfl, _, rfl, by decide⟩

theorem readFields_ignore (k : String) (v : Json)
    (hk1 : k ≠ "qemu_bin") (hk2 : k ≠ "args") (hk3 : k ≠ "desc") :
    ∀ (l1 l2 : List (String × Json)) (bs : Option String) (ar : Option (List String))
      (ds : Option (Option String)),
      readFields (l1 ++ (k, v) :: l2) bs ar ds = readFields (l1 ++ l2) bs ar ds := by
  intro l1
  induction l1 with
  | nil =>
      intro l2 bs ar ds
      simp [readFields, hk1, hk2, hk3]
  | cons hd tl ih =>
      intro l2 bs ar ds
      rcases hd with ⟨k1, v1⟩
      simp only [List.cons_append, readFields]
      by_cases h1 : k1 = "qemu_bin"
      · simp only [if_pos h1]
        rcases bs with _ | s
        · cases hg : getStr v1 <;> simp [hg, ih]
        · rfl
      · simp only [if_neg h1]
        by_cases h2 : k1 = "args"
        · simp only [if_pos h2]
          rcases ar with _ | a
          · cases hg : getStrList v1 <;> simp [hg, ih]
          · rfl
        · simp only [if_neg h2]
          by_cases h3 : k1 = "desc"
          · simp only [if_pos h3]
            rcases ds with _ | dd
            · cases hg : getOptStr v1 <;> simp [hg, ih]
            · rfl
          · simp only [if_neg h3]
            exact ih l2 bs ar ds

theorem readFields_no_bin :
    ∀ (ms : List (String × Json)) (ar : Option (List String)) (ds : Option (Option String)),
      (∀ p ∈ ms, p.1 ≠ "qemu_bin") → readFields ms none ar ds = none := by
  intro ms
  induction ms with
  | nil => intro ar ds h; rfl
  | cons hd tl ih =>
      intro ar ds h
      rcases hd with ⟨k, v⟩
      have hk : k ≠ "qemu_bin" := h (k, v) (List.mem_cons_self _ _)
      have htl : ∀ p ∈ tl, p.1 ≠ "qemu_bin" := fun p hp => h p (List.mem_cons_of_mem _ hp)
      simp only [readFields, if_neg hk]
      by_cases h2 : k = "args"
      · simp only [if_pos h2]
        rcases ar with _ | a
        · cases hg : getStrList v <;> simp [hg, ih _ _ htl]
        · rfl
      · simp only [if_neg h2]
        by_cases h3 : k = "desc"
        · simp only [if_pos h3]
          rcases ds with _ | dd
          · cases hg : getOptStr v <;> simp [hg, ih _ _ htl]
          · rfl
        · simp only [if_neg h3]
          exact ih _ _ htl

theorem readFields_no_args :
    ∀ (ms : List (String × Json)) (bs : Option String) (ds : Option (Option String)),
      (∀ p ∈ ms, p.1 ≠ "args") → readFields ms bs none ds = none := by
  intro ms
  induction ms with
  | nil => intro bs ds h; cases bs <;> rfl
  | cons hd tl ih =>
      intro bs ds h
      rcases hd with ⟨k, v⟩
      have hk : k ≠ "args" := h (k, v) (List.mem_cons_self _ _)
      have htl : ∀ p ∈ tl, p.1 ≠ "args" := fun p hp => h p (List.mem_cons_of_mem _ hp)
      simp only [readFields]
      by_cases h1 : k = "qemu_bin"
      · simp only [if_pos h1]
        rcases bs with _ | s
        · cases hg : getStr v <;> simp [hg, ih _ _ htl]
        · rfl
      · simp only [if_neg h1, if_neg hk]
        by_cases h3 : k = "desc"
        · simp only [if_pos h3]
          rcases ds with _ | dd
          · cases hg : getOptStr v <;> simp [hg, ih _ _ htl]
          · rfl
        · simp only [if_neg h3]
          exact ih _ _ htl

/-- C9 as stated is false for the description field: desc is an Option
field in struct QemuConfig, so a stored record missing the desc field
still deserializes (serde defaults a missing Option field to None)
instead of failing to parse as the claim requires. -/
theorem C9_parse_counterexample :
    deserializeConfig (Json.obj [("qemu_bin", Json.str "q"), ("args", Json.arr [])])
      = some ⟨"q", [], none⟩
    ∧ deserializeConfig (Json.obj [("qemu_bin", Json.str "q"), ("args", Json.arr [])])
      ≠ none :=
  ⟨rfl, by decide⟩

/-- C9 (amended): deserializing a stored record tolerates unrecognized
fields (removing an unknown field anywhere leaves the result unchanged);
a record missing the executable-path field or the arguments field fails
to parse and is treated as corrupt; and a record missing only the
optional description field parses successfully with no description. -/
theorem C9_parse_tolerance_amended :
    (∀ (l1 l2 : List (String × Json)) (k : String) (v : Json),
        k ≠ "qemu_bin" → k ≠ "args" → k ≠ "desc" →
        deserializeConfig (Json.obj (l1 ++ (k, v) :: l2))
          = deserializeConfig (Json.obj (l1 ++ l2)))
    ∧ (∀ ms, (∀ p ∈ ms, p.1 ≠ "qemu_bin") → deserializeConfig (Json.obj ms) = none)
    ∧ (∀ ms, (∀ p ∈ ms, p.1 ≠ "args") → deserializeConfig (Json.obj ms) = none)
    ∧ (∀ b as, deserializeConfig (Json.obj
        [("qemu_bin", Json.str b), ("args", Json.arr (as.map Json.str))])
          = some ⟨b, as, none⟩) := by
  refine ⟨fun l1 l2 k v h1 h2 h3 => ?_, fun ms h => ?_, fun ms h => ?_, fun b as => ?_⟩
  · simp only [deserializeConfig, readFields_ignore k v h1 h2 h3]
  · simp only [deserializeConfig, readFields_no_bin ms none none h]
  · simp only [deserializeConfig, readFields_no_args ms none none h]
  · simp [deserializeConfig, readFields, getStr, getStrList, getStrs_map_str, Option.bind]

/-- Witness for C9 (amended): an unknown extra field is ignored, and a
record with only a desc field (missing qemu_bin) fails to parse. -/
theorem C9_parse_tolerance_amended_witness :
    deserializeConfig (Json.obj [("qemu_bin", Json.str "q"), ("extra", Json.num 3),
        ("args", Json.arr [])])
      = deserializeConfig (Json.obj [("qemu_bin", Json.str "q"), ("args", Json.arr [])])
    ∧ deserializeConfig (Json.obj [("desc", Json.str "d")]) = none :=
  ⟨C9_parse_tolerance_amended.1 [("qemu_bin", Json.str "q")] [("args", Json.arr [])]
      "extra" (Json.num 3) (by decide) (by decide) (by decide),
   C9_parse_tolerance_amended.2.1 [("desc", Json.str "d")] (by decide)⟩

end Vex
